import Mathlib

/-!
Verification of the clustering pipeline of the CGHS Wellness Center
Dashboard (`app.py`).

The application's own code (`app.py`) is upload/validation glue around a
clustering pipeline built from library calls:
`groupby(...).size()` (Aggregator), `StandardScaler.fit_transform`
(FeatureScaler), a `KMeans` sweep over `k = 1..10` recording `inertia_`
(ElbowAnalyzer, `calculate_wcss`), `KneeLocator` plus a sidebar slider
(cluster-count selection), and `KMeans(n_clusters, random_state=42)
.fit_predict` (ClusterAssigner).  The clustering algorithms themselves are
not part of the repository's sources, so they are modelled here from the
specification: a deterministic seeded k-means (Lloyd's algorithm with a
fixed deterministic centroid choice standing for the fixed
`random_state=42`, ties broken towards the smallest centroid index, an
empty cluster keeping its previous centroid, and an iteration cap), exact
rational arithmetic in place of float64 for the 1-D feature, and real
arithmetic for the standardiser (whose output involves a square root).
-/

namespace CGHS

/-! ### Aggregator

`app.py` line 84:
`grouped_df = beneficiaries_df.groupby('Wellness Center').size()
   .reset_index(name='Beneficiary Count')` —
one row per distinct center, carrying the number of beneficiary records
for that center.  Row order is not semantically significant. -/

/-- One `(entity_id, count)` row per distinct entity id, the count being
the number of input records carrying that id (`groupby(...).size()`). -/
def aggregate (records : List String) : List (String × Nat) :=
  records.dedup.map (fun e => (e, records.count e))

/-! ### ClusterAssigner / ElbowAnalyzer (k-means model)

Modelled from the spec: the external `sklearn.cluster.KMeans` used at
`app.py` lines 91–97 and 121–122 is not in the repository sources.  The
spec (§4.4) describes it as standard centroid-based partitioning: choose
`k` initial centroids (seeded, hence deterministic), repeatedly assign
every point to its nearest centroid and move each centroid to the mean of
its points, until the centroids are stable or an iteration cap is hit.
The fixed seed is modelled by the deterministic choice of the first `k`
data points as initial centroids; `sklearn`'s `max_iter=300` is the
iteration cap. -/

/-- Squared distances from a point to each centroid. -/
def distList (x : ℚ) (cs : List ℚ) : List ℚ :=
  cs.map (fun c => (x - c) ^ 2)

/-- Minimum of a list of rationals (`0` for the empty list). -/
def listMin : List ℚ → ℚ
  | [] => 0
  | [a] => a
  | a :: b :: t => min a (listMin (b :: t))

/-- Label of a point: the index of the nearest centroid, ties broken
towards the smallest index. -/
def lab (x : ℚ) (cs : List ℚ) : ℕ :=
  (distList x cs).indexOf (listMin (distList x cs))

/-- Mean of a list of rationals. -/
def mean (l : List ℚ) : ℚ := l.sum / l.length

/-- One Lloyd update: each centroid moves to the mean of the points
currently assigned to it; a centroid with no points keeps its place. -/
def updateCentroids (vals cs : List ℚ) : List ℚ :=
  (List.range cs.length).map (fun j =>
    let members := vals.filter (fun x => lab x cs = j)
    if members.isEmpty then cs.getD j 0 else mean members)

/-- Lloyd iteration with fuel: stop at a fixed point or when the cap is
exhausted. -/
def lloydLoop (vals : List ℚ) : ℕ → List ℚ → List ℚ
  | 0, cs => cs
  | fuel + 1, cs =>
    if updateCentroids vals cs = cs then cs
    else lloydLoop vals fuel (updateCentroids vals cs)

/-- Final centroids of the seeded run: first `k` points, 300 iterations. -/
def kmeansCentroids (vals : List ℚ) (k : ℕ) : List ℚ :=
  lloydLoop vals 300 (vals.take k)

/-- WCSS (`inertia_`): total squared distance of each point to its
nearest centroid. -/
def inertia (vals cs : List ℚ) : ℚ :=
  (vals.map (fun x => listMin (distList x cs))).sum

/-- Error taxonomy of the spec (§7) relevant to the claims. -/
inductive ClusterError where
  | invalidClusterCount : ClusterError
  | emptyInput : ClusterError
deriving DecidableEq, Repr

/-- The call `KMeans(n_clusters=k, random_state=seed).fit_predict(vals)`
(`app.py` lines 121–122), modelled from the spec: rejects
`k < 1` or `k >` number of samples (as `sklearn` does, and as §4.4's
`InvalidClusterCount` demands), otherwise labels every point by its
nearest final centroid.  The seed is explicit but the initialisation it
fixes is the deterministic one described above. -/
def fit_predict (vals : List ℚ) (k seed : ℕ) : Except ClusterError (List ℕ) :=
  if k < 1 ∨ vals.length < k then .error .invalidClusterCount
  else .ok (vals.map (fun x => lab x (kmeansCentroids vals k)))

/-- The assignment step keyed by entity id: the cluster column written by
`grouped_df['Cluster'] = kmeans.fit_predict(X_scaled)` zipped back onto
the entity rows. -/
def assign (values : List (String × ℚ)) (k seed : ℕ) :
    Except ClusterError (List (String × ℕ)) :=
  match fit_predict (values.map Prod.snd) k seed with
  | .error e => .error e
  | .ok labs => .ok (List.zipWith (fun v l => (v.1, l)) values labs)

/-- One point of the elbow sweep: WCSS of the seeded run at cluster count
`k` (`KMeans(n_clusters=i, random_state=42).fit(data).inertia_`). -/
def kmeansWcss (vals : List ℚ) (k seed : ℕ) : Except ClusterError ℚ :=
  if k < 1 ∨ vals.length < k then .error .invalidClusterCount
  else .ok (inertia vals (kmeansCentroids vals k))

/-- The sweep `calculate_wcss` (`app.py` lines 91–97): the WCSS at every
`k ∈ {1, …, 10}`; any failing run (fewer than 10 samples) aborts the
sweep, as the surrounding `try` block does. -/
def calculate_wcss (vals : List ℚ) (seed : ℕ) : Except ClusterError (List ℚ) :=
  (List.range' 1 10).mapM (fun k => kmeansWcss vals k seed)

/-! ### Idealised WCSS

The k-means objective that the library minimises heuristically: the
smallest within-cluster sum of squares over *all* ways of labelling the
points with labels `< k`.  Used to state what remains true of the elbow
curve when a seeded run lands in a local optimum. -/

/-- All labellings of `n` points with labels drawn from `{0, …, k-1}`. -/
def allLabelings (k : ℕ) : ℕ → List (List ℕ)
  | 0 => [[]]
  | n + 1 => (List.range k).flatMap (fun j => (allLabelings k n).map (j :: ·))

/-- The points carrying label `j` under a labelling. -/
def clusterPts (vals : List ℚ) (labs : List ℕ) (j : ℕ) : List ℚ :=
  ((vals.zip labs).filter (fun p => p.2 = j)).map Prod.fst

/-- WCSS of one labelling: squared distance of every point to the mean of
its own cluster. -/
def labelingCost (vals : List ℚ) (labs : List ℕ) : ℚ :=
  ((vals.zip labs).map
    (fun p => (p.1 - mean (clusterPts vals labs p.2)) ^ 2)).sum

/-- The optimal (minimal) WCSS over all labellings with `k` clusters. -/
def optWcss (vals : List ℚ) (k : ℕ) : ℚ :=
  listMin ((allLabelings k vals.length).map (labelingCost vals))

end CGHS

namespace CGHS

/-! ### FeatureScaler

Modelled from the spec: `sklearn.preprocessing.StandardScaler
.fit_transform` (`app.py` lines 87–88) is not in the repository sources.
It standardises the batch by `(x - μ) / σ` with `μ` the mean and `σ` the
population standard deviation of the batch, and — its documented policy
for constant features — divides by `1` instead of `0` when `σ = 0`, so a
zero-variance column comes back as all zeros rather than as an arithmetic
fault.  Real-valued, since `σ` is a square root. -/

/-- Mean of a list of reals (`0` for the empty list, since `x / 0 = 0`). -/
noncomputable def meanR (l : List ℝ) : ℝ := l.sum / l.length

/-- Population variance of a list of reals. -/
noncomputable def varR (l : List ℝ) : ℝ :=
  ((l.map (fun x => (x - meanR l) ^ 2)).sum) / l.length

/-- Population standard deviation. -/
noncomputable def stdR (l : List ℝ) : ℝ := Real.sqrt (varR l)

/-- The map `StandardScaler().fit_transform`: `(x - μ) / σ`, with a zero `σ`
replaced by `1` (the library's `_handle_zeros_in_scale` policy). -/
noncomputable def fit_transform (l : List ℝ) : List ℝ :=
  l.map (fun x => (x - meanR l) / (if stdR l = 0 then 1 else stdR l))

/-! ### Application control flow around the pipeline

`app.py` lines 51–53 stop with a user-visible warning when the
beneficiaries table is empty (`check_required_columns` + `st.stop()`), and
lines 151–152 catch any exception of the clustering block and render it as
a user-visible error (`st.error`).  A table whose entity column is all
null reaches the block, `groupby` drops the nulls, and the scaler's
zero-sample failure is caught there. -/

/-- Outcome of the guarded clustering block: a pre-flight stop with a
warning, a caught failure rendered as an error message, or the per-entity
counts handed to the rest of the pipeline. -/
inductive Flow where
  | stopped (msg : String) : Flow
  | failed (msg : String) : Flow
  | proceeded (counts : List (String × Nat)) : Flow
deriving DecidableEq, Repr

/-- Warning shown by `check_required_columns` for an empty table. -/
def emptyTableWarning : String := "Beneficiaries Data is empty or not uploaded."

/-- Error shown by the `except` handler when the scaler rejects a
zero-entity array. -/
def clusteringFailedMsg : String := "Clustering failed: Found array with 0 sample(s)"

/-- The guarded flow from upload to per-entity counts: empty table →
stop with the warning; all-null entity column → the caught zero-sample
failure; otherwise the aggregated counts proceed. -/
def runPipelineGate (records : List (Option String)) : Flow :=
  if records.isEmpty then .stopped emptyTableWarning
  else
    let counts := aggregate (records.filterMap id)
    if counts.isEmpty then .failed clusteringFailedMsg
    else .proceeded counts

/-! ### Cluster-count selection

`app.py` lines 113–118: `KneeLocator(...).elbow` suggests a cluster
count, and `st.sidebar.slider('...', min_value=2, max_value=10,
value=optimal_k or 3)` picks the one actually used.  Streamlit raises
(caught by the `except` block) when the default value lies outside
`[min_value, max_value]`; Python's `or` falls back on `None` (and on
`0`). -/

/-- Python's `optimal_k or 3`. -/
def pyOrDefault (suggestion : Option ℕ) (fallback : ℕ) : ℕ :=
  match suggestion with
  | none => fallback
  | some v => if v = 0 then fallback else v

/-- The slider's admission of its default: out-of-range defaults raise a
`StreamlitAPIException`, otherwise the (default) value is used. -/
def slider_select (minVal maxVal value : ℕ) : Except String ℕ :=
  if value < minVal ∨ maxVal < value then .error "slider value out of range"
  else .ok value

/-- The cluster count reaching `KMeans(n_clusters=...)` at line 121. -/
def chooseClusterCount (optimal_k : Option ℕ) : Except String ℕ :=
  slider_select 2 10 (pyOrDefault optimal_k 3)

end CGHS

namespace CGHS

set_option maxRecDepth 200000

/-! ### Basic lemmas about the minimum, labellings, and the aggregator -/

theorem listMin_mem : ∀ (l : List ℚ), l ≠ [] → listMin l ∈ l
  | [], h => absurd rfl h
  | [a], _ => by simp [listMin]
  | a :: b :: t, _ => by
    rcases min_choice a (listMin (b :: t)) with h | h
    · rw [listMin, h]
      exact List.mem_cons_self _ _
    · rw [listMin, h]
      exact List.mem_cons_of_mem _ (listMin_mem (b :: t) (by simp))

theorem listMin_le : ∀ (l : List ℚ) (x : ℚ), x ∈ l → listMin l ≤ x
  | [], _, hx => absurd hx (List.not_mem_nil _)
  | [a], x, hx => by
    rw [List.mem_singleton] at hx
    simp [listMin, hx]
  | a :: b :: t, x, hx => by
    rw [listMin]
    rcases List.mem_cons.mp hx with h | h
    · rw [h]
      exact min_le_left _ _
    · exact le_trans (min_le_right _ _) (listMin_le (b :: t) x h)

theorem replicate_mem_allLabelings (k : ℕ) (hk : 1 ≤ k) :
    ∀ n, List.replicate n 0 ∈ allLabelings k n := by
  intro n
  induction n with
  | zero => simp [allLabelings]
  | succ n ih =>
    rw [List.replicate_succ, allLabelings, List.mem_flatMap]
    exact ⟨0, by simpa using hk, List.mem_map_of_mem _ ih⟩

theorem allLabelings_mono (k : ℕ) :
    ∀ n (l : List ℕ), l ∈ allLabelings k n → l ∈ allLabelings (k + 1) n := by
  intro n
  induction n with
  | zero => simp [allLabelings]
  | succ n ih =>
    intro l hl
    rw [allLabelings, List.mem_flatMap] at hl ⊢
    obtain ⟨j, hj, hl⟩ := hl
    obtain ⟨l', hl', rfl⟩ := List.mem_map.mp hl
    exact ⟨j, by simp only [List.mem_range] at hj ⊢; omega,
      List.mem_map_of_mem _ (ih l' hl')⟩

/-- Claim C1 (amended): the seeded Lloyd sweep of `calculate_wcss` can
produce a curve that *increases* (see `wcss_sweep_curve_can_increase`,
where the run at `k = 5` converges to a worse local optimum than the run
at `k = 4`); what does hold is that the idealised WCSS — the minimum of
the k-means objective over all labellings with `k` clusters, the quantity
the library's clustering heuristically minimises — is monotonically
non-increasing in `k`, plateaus allowed: every labelling with labels
`< k` is also one with labels `< k + 1`. -/
theorem optimal_wcss_antitone (vals : List ℚ) (k : ℕ) (hk : 1 ≤ k) :
    optWcss vals (k + 1) ≤ optWcss vals k := by
  have hne : allLabelings k vals.length ≠ [] :=
    List.ne_nil_of_mem (replicate_mem_allLabelings k hk vals.length)
  have hmap : (allLabelings k vals.length).map (labelingCost vals) ≠ [] := by
    simpa [List.map_eq_nil_iff] using hne
  obtain ⟨l₀, hl₀, hcost⟩ :=
    List.mem_map.mp (listMin_mem _ hmap)
  have hl₁ : l₀ ∈ allLabelings (k + 1) vals.length :=
    allLabelings_mono k vals.length l₀ hl₀
  calc optWcss vals (k + 1)
      ≤ labelingCost vals l₀ :=
        listMin_le _ _ (List.mem_map_of_mem _ hl₁)
    _ = optWcss vals k := hcost

/-- Witness for `optimal_wcss_antitone` at the concrete input
`vals = [0, 4]`, `k = 1`. -/
theorem optimal_wcss_antitone_witness :
    1 ≤ 1 ∧ optWcss [0, 4] (1 + 1) ≤ optWcss [0, 4] 1 :=
  ⟨by decide, optimal_wcss_antitone [0, 4] 1 (by decide)⟩

/-- Claim C1 (counterexample): for the ten scaled values
`[9, 1, 9, 2, 4, 1, 6, 6, 1, 4]` the elbow sweep of `calculate_wcss`
records WCSS `3/4` at `k = 4` but WCSS `4` at `k = 5`: the curve rises by
`13/4`, far beyond any floating-point epsilon (it even exceeds `3/4 + 1`),
so the curve produced by the sweep is not monotonically non-increasing. -/
theorem wcss_sweep_curve_can_increase :
    calculate_wcss [9, 1, 9, 2, 4, 1, 6, 6, 1, 4] 42 =
      Except.ok [881/10, 119/6, 65/6, 3/4, 4, 4, 0, 0, 0, 0] ∧
    ¬ (([881/10, 119/6, 65/6, 3/4, 4, 4, 0, 0, 0, 0] : List ℚ).getD 4 0 ≤
        ([881/10, 119/6, 65/6, 3/4, 4, 4, 0, 0, 0, 0] : List ℚ).getD 3 0 + 1) := by
  constructor
  · with_unfolding_all rfl
  · simp only [List.getD]
    norm_num

/-- Claim C3: the aggregation yields exactly one `(entity_id, count)` pair
per distinct entity id (the key column lists each distinct id once), each
count is the number of records carrying that id, and the counts sum to
the number of records. -/
theorem aggregate_counts_partition (R : List String) :
    (aggregate R).map Prod.fst = R.dedup ∧
    ((aggregate R).map Prod.fst).Nodup ∧
    (∀ p ∈ aggregate R, p.2 = R.count p.1) ∧
    ((aggregate R).map Prod.snd).sum = R.length := by
  have hfst : (aggregate R).map Prod.fst = R.dedup := by
    simp [aggregate, List.map_map, Function.comp_def]
  refine ⟨hfst, ?_, ?_, ?_⟩
  · rw [hfst]
    exact R.nodup_dedup
  · intro p hp
    obtain ⟨e, _, rfl⟩ := List.mem_map.mp hp
    rfl
  · have hsnd : (aggregate R).map Prod.snd = R.dedup.map fun x => R.count x := by
      simp [aggregate, List.map_map, Function.comp_def]
    rw [hsnd]
    exact List.sum_map_count_dedup_eq_length R

/-! ### Structure of the assignment output -/

theorem fit_predict_ok_length (vals : List ℚ) (k seed : ℕ) (labs : List ℕ)
    (h : fit_predict vals k seed = Except.ok labs) : labs.length = vals.length := by
  rw [fit_predict] at h
  split at h
  · simp at h
  · injection h with h2
    rw [← h2]
    simp

theorem map_fst_zipWith_pair :
    ∀ (values : List (String × ℚ)) (labs : List ℕ), labs.length = values.length →
      (List.zipWith (fun v l => (v.1, l)) values labs).map Prod.fst =
        values.map Prod.fst
  | [], _, _ => by simp
  | v :: vs, [], h => by simp at h
  | v :: vs, l :: ls, h => by
    simp only [List.zipWith_cons_cons, List.map_cons]
    rw [map_fst_zipWith_pair vs ls (by simpa using h)]

theorem map_snd_zipWith_pair :
    ∀ (values : List (String × ℚ)) (labs : List ℕ), labs.length = values.length →
      (List.zipWith (fun v l => (v.1, l)) values labs).map Prod.snd = labs
  | [], [], _ => by simp
  | [], l :: ls, h => by simp at h
  | v :: vs, [], h => by simp at h
  | v :: vs, l :: ls, h => by
    simp only [List.zipWith_cons_cons, List.map_cons]
    rw [map_snd_zipWith_pair vs ls (by simpa using h)]

/-- Claim C5: a successful assignment labels exactly the input entities:
one output row per input row, and the key column of the output is the key
column of the input (so, for distinct input keys, no duplicates and no
omissions). -/
theorem assign_entity_bijection (values : List (String × ℚ)) (k seed : ℕ)
    (out : List (String × ℕ)) (h : assign values k seed = Except.ok out) :
    out.length = values.length ∧ out.map Prod.fst = values.map Prod.fst := by
  rw [assign] at h
  cases hfp : fit_predict (values.map Prod.snd) k seed with
  | error e =>
    rw [hfp] at h
    simp at h
  | ok labs =>
    rw [hfp] at h
    injection h with h2
    have hlabs : labs.length = values.length := by
      have := fit_predict_ok_length _ k seed labs hfp
      simpa using this
    subst h2
    refine ⟨?_, map_fst_zipWith_pair values labs hlabs⟩
    simp [List.length_zipWith, hlabs]

/-- Witness for `assign_entity_bijection` at the concrete input
`[("A", 0), ("B", 4)]`, `k = 2`. -/
theorem assign_entity_bijection_witness :
    assign [("A", 0), ("B", 4)] 2 42 = Except.ok [("A", 0), ("B", 1)] ∧
    ([("A", 0), ("B", 1)] : List (String × ℕ)).length =
      ([("A", 0), ("B", 4)] : List (String × ℚ)).length ∧
    ([("A", 0), ("B", 1)] : List (String × ℕ)).map Prod.fst =
      ([("A", 0), ("B", 4)] : List (String × ℚ)).map Prod.fst := by
  have hok : assign [("A", 0), ("B", 4)] 2 42 = Except.ok [("A", 0), ("B", 1)] := by
    with_unfolding_all rfl
  exact ⟨hok, assign_entity_bijection [("A", 0), ("B", 4)] 2 42 [("A", 0), ("B", 1)] hok⟩

/-- Claim C2: the assignment is deterministic — it is a pure function of
the input values, the cluster count and the seed (the model's only
randomness source, fixed in the code as `random_state=42`), so two runs
on identical input, identical `k` and identical seed return the identical
list of labelled entities (hence the identical partition, with identical
labels). -/
theorem assign_deterministic (values : List (String × ℚ)) (k seed : ℕ) :
    assign values k seed = assign values k seed ∧
    ∀ out₁ out₂, assign values k seed = Except.ok out₁ →
      assign values k seed = Except.ok out₂ → out₁ = out₂ := by
  refine ⟨rfl, ?_⟩
  intro out₁ out₂ h₁ h₂
  rw [h₁] at h₂
  injection h₂

/-- Witness for `assign_deterministic`: both hypotheses discharged by the
same concrete evaluated run. -/
theorem assign_deterministic_witness :
    assign [("A", 0)] 1 42 = Except.ok [("A", 0)] ∧
    ([("A", 0)] : List (String × ℕ)) = [("A", 0)] := by
  have hok : assign [("A", 0)] 1 42 = Except.ok [("A", 0)] := by
    with_unfolding_all rfl
  exact ⟨hok, (assign_deterministic [("A", 0)] 1 42).2 [("A", 0)] [("A", 0)] hok hok⟩

/-- Claim C6: a cluster count outside `[1, number of entities]` is rejected
with the `InvalidClusterCount` error — never clamped; in particular a
single entity with `k = 2` is rejected (see the witness). -/
theorem assign_rejects_invalid_k (values : List (String × ℚ)) (k seed : ℕ)
    (h : k < 1 ∨ values.length < k) :
    assign values k seed = Except.error ClusterError.invalidClusterCount := by
  have hfp : fit_predict (values.map Prod.snd) k seed =
      Except.error ClusterError.invalidClusterCount := by
    rw [fit_predict, if_pos]
    simpa using h
  rw [assign, hfp]

/-- Witness for `assign_rejects_invalid_k`: the spec's single-entity
scenario, `ClusterAssigner(k=2)` on the one entity `{A: 5}`. -/
theorem assign_rejects_invalid_k_witness :
    (2 < 1 ∨ ([("A", 5)] : List (String × ℚ)).length < 2) ∧
    assign [("A", 5)] 2 42 = Except.error ClusterError.invalidClusterCount :=
  ⟨Or.inr (by simp), assign_rejects_invalid_k [("A", 5)] 2 42 (Or.inr (by simp))⟩

/-! ### Boundary behaviour of the seeded k-means -/

theorem lab_singleton (x c : ℚ) : lab x [c] = 0 := by
  simp [lab, distList, listMin, List.indexOf_cons_self]

theorem updateCentroids_length (vals cs : List ℚ) :
    (updateCentroids vals cs).length = cs.length := by
  simp [updateCentroids]

theorem lloydLoop_length (vals : List ℚ) :
    ∀ (fuel : ℕ) (cs : List ℚ), (lloydLoop vals fuel cs).length = cs.length
  | 0, _ => rfl
  | fuel + 1, cs => by
    rw [lloydLoop]
    split
    · rfl
    · rw [lloydLoop_length vals fuel _, updateCentroids_length]

theorem kmeansCentroids_length (vals : List ℚ) (k : ℕ) :
    (kmeansCentroids vals k).length = min k vals.length := by
  rw [kmeansCentroids, lloydLoop_length, List.length_take]

theorem indexOf_first :
    ∀ (l : List ℚ) (a : ℚ) (i : ℕ) (hi : i < l.length),
      l.get ⟨i, hi⟩ = a → (∀ j (hj : j < i), l.get ⟨j, lt_trans hj hi⟩ ≠ a) →
      l.indexOf a = i
  | [], _, i, hi, _, _ => absurd hi (by simp)
  | b :: t, a, 0, _, hget, _ => by
    exact List.indexOf_cons_eq t (by simpa using hget)
  | b :: t, a, i + 1, hi, hget, hfirst => by
    have hb : b ≠ a := by simpa using hfirst 0 (Nat.succ_pos i)
    rw [List.indexOf_cons_ne t hb]
    have hi' : i < t.length := by simpa using hi
    have hget' : t.get ⟨i, hi'⟩ = a := by simpa using hget
    have hfirst' : ∀ j (hj : j < i), t.get ⟨j, lt_trans hj hi'⟩ ≠ a := by
      intro j hj
      have := hfirst (j + 1) (by omega)
      simpa using this
    rw [indexOf_first t a i hi' hget' hfirst']

/-- With pairwise-distinct points as centroids, every point's nearest
centroid is itself. -/
theorem lab_self (vs : List ℚ) (hnd : vs.Nodup) (i : ℕ) (hi : i < vs.length) :
    lab (vs.get ⟨i, hi⟩) vs = i := by
  have hx : vs.get ⟨i, hi⟩ = vs[i] := rfl
  rw [hx]
  have hlen : (distList (vs[i]) vs).length = vs.length := by simp [distList]
  have hi' : i < (distList (vs[i]) vs).length := by rw [hlen]; exact hi
  set x := vs[i] with hxdef
  have hdi : (distList x vs).get ⟨i, hi'⟩ = 0 := by
    simp only [distList, List.get_eq_getElem, List.getElem_map]
    rw [← hxdef]
    ring
  have hmem0 : (0 : ℚ) ∈ distList x vs := by
    rw [← hdi]
    exact (distList x vs).get_mem _ _
  have hnonneg : ∀ y ∈ distList x vs, (0 : ℚ) ≤ y := by
    intro y hy
    obtain ⟨c, _, rfl⟩ := List.mem_map.mp hy
    exact sq_nonneg _
  have hne : distList x vs ≠ [] := by
    intro hcon
    rw [hcon] at hi'
    simp at hi'
  have hminz : listMin (distList x vs) = 0 :=
    le_antisymm (listMin_le _ _ hmem0) (hnonneg _ (listMin_mem _ hne))
  rw [lab, hminz]
  apply indexOf_first (distList x vs) 0 i hi' hdi
  intro j hj
  have hj' : j < vs.length := lt_trans hj hi
  have hgj : (distList x vs).get ⟨j, lt_trans hj hi'⟩ =
      (x - vs.get ⟨j, hj'⟩) ^ 2 := by
    simp [distList, List.get_eq_getElem, List.getElem_map]
  rw [hgj]
  intro hzero
  have hsub : x - vs.get ⟨j, hj'⟩ = 0 :=
    pow_eq_zero_iff (two_ne_zero) |>.mp hzero
  have hxj : vs.get ⟨j, hj'⟩ = x := by linarith [sub_eq_zero.mp hsub]
  have : j = i := by
    have hgg : vs.get ⟨j, hj'⟩ = vs.get ⟨i, hi⟩ := by rw [hxj, hxdef]; rfl
    simpa using (hnd.get_inj_iff).mp hgg
  omega

theorem filter_eq_singleton (l : List ℚ) (a : ℚ) (p : ℚ → Bool)
    (hnd : l.Nodup) (ha : a ∈ l) (hp : ∀ x ∈ l, p x = true ↔ x = a) :
    l.filter p = [a] := by
  induction l with
  | nil => simp at ha
  | cons b t ih =>
    rw [List.nodup_cons] at hnd
    rcases List.mem_cons.mp ha with hab | hat
    · subst hab
      have hpb : p a = true := (hp a (List.mem_cons_self a t)).mpr rfl
      rw [List.filter_cons_of_pos hpb]
      have : t.filter p = [] := by
        rw [List.filter_eq_nil_iff]
        intro x hx hpx
        have := (hp x (List.mem_cons_of_mem a hx)).mp hpx
        subst this
        exact hnd.1 hx
      rw [this]
    · have hba : ¬ p b = true := by
        intro hpb
        have := (hp b (List.mem_cons_self b t)).mp hpb
        subst this
        exact hnd.1 hat
      rw [List.filter_cons_of_neg hba]
      exact ih hnd.2 hat (fun x hx => hp x (List.mem_cons_of_mem b hx))

/-- With pairwise-distinct points used as their own centroids, each
cluster is the singleton of its centroid, so the update step is the
identity. -/
theorem updateCentroids_self (vs : List ℚ) (hnd : vs.Nodup) :
    updateCentroids vs vs = vs := by
  apply List.ext_getElem
  · simp [updateCentroids]
  · intro i h1 h2
    simp only [updateCentroids, List.getElem_map, List.getElem_range,
      List.length_range] at h1 ⊢
    have hfil : vs.filter (fun x => lab x vs = i) = [vs.get ⟨i, h2⟩] := by
      apply filter_eq_singleton vs _ _ hnd (vs.get_mem _ _)
      intro x hx
      obtain ⟨⟨m, hm⟩, hget⟩ := List.mem_iff_get.mp hx
      subst hget
      rw [lab_self vs hnd m hm]
      simp only [decide_eq_true_eq]
      constructor
      · intro hmi
        subst hmi
        rfl
      · intro hg
        simpa using (hnd.get_inj_iff).mp hg
    rw [hfil]
    simp [mean, List.get_eq_getElem]
  
theorem lloydLoop_fixpoint (vs : List ℚ) (fuel : ℕ) (cs : List ℚ)
    (h : updateCentroids vs cs = cs) : lloydLoop vs fuel cs = cs := by
  cases fuel with
  | zero => rfl
  | succ fuel => rw [lloydLoop, if_pos h]

/-- Claim C8 (amended): for every non-empty input, assignment at `k = 1`
labels every entity `0` (a single cluster containing all entities); and
assignment at `k =` number of entities yields one entity per cluster with
every label in `[0, k-1]` used exactly once *provided the scaled values
are pairwise distinct* — with duplicated values the degenerate duplicate
centroids leave a label unused (see
`assign_full_k_duplicate_values`). -/
theorem assign_boundary (values : List (String × ℚ)) (seed : ℕ)
    (hne : values ≠ []) :
    (∃ out, assign values 1 seed = Except.ok out ∧
        out.map Prod.snd = List.replicate values.length 0) ∧
    ((values.map Prod.snd).Nodup →
      ∃ out, assign values values.length seed = Except.ok out ∧
        out.map Prod.snd = List.range values.length) := by
  have hpos : 0 < values.length := List.length_pos.mpr hne
  set vs := values.map Prod.snd with hvs
  have hvslen : vs.length = values.length := by simp [hvs]
  constructor
  · -- k = 1: a single centroid, hence a single cluster
    have hguard : ¬ (1 < 1 ∨ vs.length < 1) := by
      rw [hvslen]
      omega
    have hcl : (kmeansCentroids vs 1).length = 1 := by
      rw [kmeansCentroids_length, hvslen]
      omega
    obtain ⟨c, hc⟩ := List.length_eq_one.mp hcl
    have hlabs : vs.map (fun x => lab x (kmeansCentroids vs 1)) =
        List.replicate values.length 0 := by
      rw [hc]
      apply List.eq_replicate.mpr
      refine ⟨by simp [hvslen], ?_⟩
      intro b hb
      obtain ⟨x, _, rfl⟩ := List.mem_map.mp hb
      exact lab_singleton x c
    have hfp : fit_predict vs 1 seed =
        Except.ok (List.replicate values.length 0) := by
      rw [fit_predict, if_neg hguard, hlabs]
    refine ⟨List.zipWith (fun v l => (v.1, l)) values
        (List.replicate values.length 0), ?_, ?_⟩
    · rw [assign, hfp]
    · apply map_snd_zipWith_pair
      simp
  · -- k = number of entities, distinct values: identity labelling
    intro hnd
    have hguard : ¬ (values.length < 1 ∨ vs.length < values.length) := by
      rw [hvslen]
      omega
    have htake : vs.take values.length = vs := by
      rw [← hvslen]
      exact List.take_length vs
    have hcs : kmeansCentroids vs values.length = vs := by
      rw [kmeansCentroids, htake]
      exact lloydLoop_fixpoint vs 300 vs (updateCentroids_self vs hnd)
    have hlabs : vs.map (fun x => lab x (kmeansCentroids vs values.length)) =
        List.range values.length := by
      rw [hcs]
      apply List.ext_getElem
      · simp [hvslen]
      · intro i h1 h2
        simp only [List.getElem_map, List.getElem_range]
        have hi : i < vs.length := by simpa using h1
        have := lab_self vs hnd i hi
        simpa [List.get_eq_getElem] using this
    have hfp : fit_predict vs values.length seed =
        Except.ok (List.range values.length) := by
      rw [fit_predict, if_neg hguard, hlabs]
    refine ⟨List.zipWith (fun v l => (v.1, l)) values
        (List.range values.length), ?_, ?_⟩
    · rw [assign, hfp]
    · apply map_snd_zipWith_pair
      simp [hvslen]

/-- Witness for `assign_boundary` at the concrete two-entity input
`[("A", 0), ("B", 4)]`: `k = 1` puts both entities in cluster `0`, and
`k = 2` (the number of entities, values distinct) uses each label once. -/
theorem assign_boundary_witness :
    ([("A", (0:ℚ)), ("B", 4)] : List (String × ℚ)) ≠ [] ∧
    (([("A", (0:ℚ)), ("B", 4)] : List (String × ℚ)).map Prod.snd).Nodup ∧
    (∃ out, assign [("A", (0:ℚ)), ("B", 4)] 1 42 = Except.ok out ∧
      out.map Prod.snd = List.replicate 2 0) ∧
    (∃ out, assign [("A", (0:ℚ)), ("B", 4)] 2 42 = Except.ok out ∧
      out.map Prod.snd = List.range 2) := by
  have hne : ([("A", (0:ℚ)), ("B", 4)] : List (String × ℚ)) ≠ [] :=
    List.cons_ne_nil _ _
  have hnd : (([("A", (0:ℚ)), ("B", 4)] : List (String × ℚ)).map Prod.snd).Nodup := by
    norm_num
  have h := assign_boundary [("A", (0:ℚ)), ("B", 4)] 42 hne
  exact ⟨hne, hnd, h.1, h.2 hnd⟩

/-- Claim C8 (counterexample): two entities sharing the scaled value `0`,
clustered at `k = 2` (the number of entities): both receive label `0`, so
label `1` is not used exactly once — the "one entity per cluster"
boundary claim fails when values are duplicated. -/
theorem assign_full_k_duplicate_values :
    assign [("A", 0), ("B", 0)] 2 42 = Except.ok [("A", 0), ("B", 0)] ∧
    ¬ ((([("A", 0), ("B", 0)] : List (String × ℕ)).map Prod.snd).count 1 = 1) := by
  constructor
  · with_unfolding_all rfl
  · decide

/-! ### Standardisation facts -/

theorem sum_map_div_const (l : List ℝ) (f : ℝ → ℝ) (c : ℝ) :
    (l.map (fun x => f x / c)).sum = (l.map f).sum / c := by
  induction l with
  | nil => simp
  | cons a t ih => simp [ih, add_div]

theorem sum_map_sub_const (l : List ℝ) (μ : ℝ) :
    (l.map (fun x => x - μ)).sum = l.sum - l.length * μ := by
  induction l with
  | nil => simp
  | cons a t ih =>
    simp only [List.map_cons, List.sum_cons, ih, List.length_cons]
    push_cast
    ring

theorem varR_nonneg (l : List ℝ) : 0 ≤ varR l := by
  rw [varR]
  apply div_nonneg
  · apply List.sum_nonneg
    intro x hx
    obtain ⟨y, _, rfl⟩ := List.mem_map.mp hx
    exact sq_nonneg _
  · positivity

theorem sum_nonneg_all_zero :
    ∀ (l : List ℝ), (∀ x ∈ l, 0 ≤ x) → l.sum = 0 → ∀ x ∈ l, x = 0
  | [], _, _, x, hx => absurd hx (List.not_mem_nil x)
  | a :: t, hpos, hsum, x, hx => by
    rw [List.sum_cons] at hsum
    have hts : 0 ≤ t.sum := List.sum_nonneg (fun y hy => hpos y (List.mem_cons_of_mem a hy))
    have ha : 0 ≤ a := hpos a (List.mem_cons_self a t)
    have ha0 : a = 0 := by linarith
    have hts0 : t.sum = 0 := by linarith
    rcases List.mem_cons.mp hx with rfl | hxt
    · exact ha0
    · exact sum_nonneg_all_zero t (fun y hy => hpos y (List.mem_cons_of_mem a hy)) hts0 x hxt

theorem eq_meanR_of_varR_zero (l : List ℝ) (h : varR l = 0) :
    ∀ x ∈ l, x = meanR l := by
  intro x hx
  have hne : l ≠ [] := List.ne_nil_of_mem hx
  have hlen : (l.length : ℝ) ≠ 0 := by
    simpa using List.length_pos.mpr hne |>.ne'
  have hsum : (l.map (fun y => (y - meanR l) ^ 2)).sum = 0 := by
    rw [varR, div_eq_zero_iff] at h
    rcases h with h | h
    · exact h
    · exact absurd h hlen
  have hterm : (x - meanR l) ^ 2 = 0 := by
    apply sum_nonneg_all_zero _ ?_ hsum
    · exact List.mem_map_of_mem _ hx
    · intro y hy
      obtain ⟨z, _, rfl⟩ := List.mem_map.mp hy
      exact sq_nonneg _
  have := pow_eq_zero_iff (two_ne_zero) |>.mp hterm
  linarith [sub_eq_zero.mp this]

/-- Claim C7: on zero-variance input (all values identical, including a
single entity) the scaler applies the all-zeros policy — the division is
by the substituted `1`, never by `0`, so no arithmetic fault arises and
every output value is `0`. -/
theorem fit_transform_zero_variance (l : List ℝ) (h : varR l = 0) :
    fit_transform l = List.replicate l.length 0 := by
  have hstd : stdR l = 0 := by rw [stdR, h, Real.sqrt_zero]
  rw [fit_transform]
  apply List.eq_replicate.mpr
  refine ⟨by simp, ?_⟩
  intro b hb
  obtain ⟨x, hx, rfl⟩ := List.mem_map.mp hb
  rw [if_pos hstd, div_one, eq_meanR_of_varR_zero l h x hx, sub_self]

/-- Witness for `fit_transform_zero_variance` at the concrete constant
input `[5, 5]`. -/
theorem fit_transform_zero_variance_witness :
    varR [(5:ℝ), 5] = 0 ∧ fit_transform [(5:ℝ), 5] = List.replicate 2 0 := by
  have hvar : varR [(5:ℝ), 5] = 0 := by
    norm_num [varR, meanR]
  exact ⟨hvar, fit_transform_zero_variance [(5:ℝ), 5] hvar⟩

/-- Claim C4: on input with positive variance the scaler computes exactly
`(x - μ) / σ`, and the output has mean exactly `0` and population
standard deviation exactly `1` — in particular within the spec's `1e-9`
and `1e-6` tolerances. -/
theorem fit_transform_standardizes (l : List ℝ) (h : 0 < varR l) :
    fit_transform l = l.map (fun x => (x - meanR l) / stdR l) ∧
    meanR (fit_transform l) = 0 ∧
    stdR (fit_transform l) = 1 ∧
    |meanR (fit_transform l)| < 1e-9 ∧
    |stdR (fit_transform l) - 1| < 1e-6 := by
  have hne : l ≠ [] := by
    intro h0
    rw [h0] at h
    simp [varR] at h
  have hlen : (l.length : ℝ) ≠ 0 := by
    simpa using List.length_pos.mpr hne |>.ne'
  have hstdpos : 0 < stdR l := Real.sqrt_pos.mpr h
  have hstd : stdR l ≠ 0 := hstdpos.ne'
  have hform : fit_transform l = l.map (fun x => (x - meanR l) / stdR l) := by
    rw [fit_transform]
    simp [hstd]
  have hsum : l.sum = l.length * meanR l := by
    rw [meanR, mul_div_cancel₀ _ hlen]
  have hmean : meanR (fit_transform l) = 0 := by
    rw [hform, meanR, List.length_map, sum_map_div_const, sum_map_sub_const,
      hsum]
    simp
  have hsq : (fit_transform l).map (fun y => (y - meanR (fit_transform l)) ^ 2) =
      l.map (fun x => ((x - meanR l) / stdR l) ^ 2) := by
    rw [hmean, hform, List.map_map]
    apply List.map_congr_left
    intro x _
    simp
  have hvar1 : varR (fit_transform l) = 1 := by
    rw [varR, hsq]
    have : (l.map (fun x => ((x - meanR l) / stdR l) ^ 2)).sum =
        (l.map (fun x => (x - meanR l) ^ 2)).sum / stdR l ^ 2 := by
      rw [← sum_map_div_const l (fun x => (x - meanR l) ^ 2) (stdR l ^ 2)]
      apply congrArg List.sum
      apply List.map_congr_left
      intro x _
      rw [div_pow]
    rw [this, stdR, Real.sq_sqrt (varR_nonneg l)]
    have hsumvar : (l.map (fun x => (x - meanR l) ^ 2)).sum = l.length * varR l := by
      rw [varR, mul_div_cancel₀ _ hlen]
    rw [hsumvar, hform, List.length_map, mul_div_assoc, div_self h.ne',
      mul_one, div_self hlen]
  have hstd1 : stdR (fit_transform l) = 1 := by
    rw [stdR, hvar1, Real.sqrt_one]
  refine ⟨hform, hmean, hstd1, ?_, ?_⟩
  · rw [hmean]
    norm_num
  · rw [hstd1]
    norm_num

/-- Witness for `fit_transform_standardizes` at the concrete input
`[0, 2]`, whose variance is `1`. -/
theorem fit_transform_standardizes_witness :
    0 < varR [(0:ℝ), 2] ∧
    (fit_transform [(0:ℝ), 2] =
        [(0:ℝ), 2].map (fun x => (x - meanR [(0:ℝ), 2]) / stdR [(0:ℝ), 2]) ∧
      meanR (fit_transform [(0:ℝ), 2]) = 0 ∧
      stdR (fit_transform [(0:ℝ), 2]) = 1 ∧
      |meanR (fit_transform [(0:ℝ), 2])| < 1e-9 ∧
      |stdR (fit_transform [(0:ℝ), 2]) - 1| < 1e-6) := by
  have hvar : 0 < varR [(0:ℝ), 2] := by
    norm_num [varR, meanR]
  exact ⟨hvar, fit_transform_standardizes [(0:ℝ), 2] hvar⟩

/-! ### Empty input and cluster-count selection -/

/-- Claim C9: aggregation of an empty record sequence returns an empty
output without failing, the guarded flow stops an empty table with the
user-visible warning before clustering, and any zero-entity input (empty,
or all entity ids null and dropped by `groupby`) ends in a named
user-visible outcome — a stop or a caught, rendered failure — never an
uncaught crash. -/
theorem empty_input_short_circuits :
    aggregate [] = [] ∧
    runPipelineGate [] = Flow.stopped emptyTableWarning ∧
    (∀ records : List (Option String), records.filterMap id = [] →
      runPipelineGate records = Flow.stopped emptyTableWarning ∨
      runPipelineGate records = Flow.failed clusteringFailedMsg) := by
  refine ⟨rfl, rfl, ?_⟩
  intro records h
  cases records with
  | nil => exact Or.inl rfl
  | cons r rs =>
    right
    rw [runPipelineGate, if_neg (by simp)]
    rw [h]
    rfl

/-- Witness for `empty_input_short_circuits`: a table of two records both
with a null entity id. -/
theorem empty_input_short_circuits_witness :
    ([none, none] : List (Option String)).filterMap id = [] ∧
    (runPipelineGate [none, none] = Flow.stopped emptyTableWarning ∨
      runPipelineGate [none, none] = Flow.failed clusteringFailedMsg) :=
  ⟨rfl, empty_input_short_circuits.2.2 [none, none] rfl⟩

/-- Claim C10: every cluster count the slider lets through to the final
`KMeans` call is an integer in `[2, 10]` — in particular never `1`; the
default is the knee suggestion when one exists (`none` falls back to
`3`), and a knee suggestion of `1` lies outside the slider's admissible
default range, so it raises instead of reaching the clustering step. -/
theorem final_cluster_count_in_range :
    (∀ suggestion k, chooseClusterCount suggestion = Except.ok k →
      2 ≤ k ∧ k ≤ 10 ∧ k ≠ 1) ∧
    chooseClusterCount (some 1) = Except.error "slider value out of range" ∧
    chooseClusterCount none = Except.ok 3 := by
  refine ⟨?_, rfl, rfl⟩
  intro suggestion k h
  rw [chooseClusterCount, slider_select] at h
  split at h
  · simp at h
  · injection h with h2
    subst h2
    omega

/-- Witness for `final_cluster_count_in_range` at the concrete knee
suggestion `4`. -/
theorem final_cluster_count_in_range_witness :
    chooseClusterCount (some 4) = Except.ok 4 ∧ (2 ≤ 4 ∧ 4 ≤ 10 ∧ 4 ≠ 1) :=
  ⟨rfl, final_cluster_count_in_range.1 (some 4) 4 rfl⟩
